import Mathlib

/-!
Verification of the news collection-and-enrichment pipeline in
`statistics/get_news.py`: state-mention extraction, political-leaning
scoring, paginated article fetching, url-deduplication, row expansion
and persistence of the enriched table.

External services (the article-search API and the text-classification
API) are modelled as oracle parameters; everything else is translated
from the source.
-/

set_option maxRecDepth 8000

namespace GetNews

/-- Python's substring test `needle in hay` on strings. -/
def isSubstr (needle hay : String) : Bool :=
  decide (needle.toList <:+: hay.toList)

/-- The 50 full state names, in the order of the source's `states` list
(lines 177-189 of `get_news.py`). -/
def fullNames : List String :=
  ["Alabama", "Alaska", "Arizona", "Arkansas", "California", "Colorado", "Connecticut",
   "Delaware", "Florida", "Georgia", "Hawaii", "Idaho", "Illinois", "Indiana", "Iowa",
   "Kansas", "Kentucky", "Louisiana", "Maine", "Maryland", "Massachusetts", "Michigan",
   "Minnesota", "Mississippi", "Missouri", "Montana", "Nebraska", "Nevada", "New Hampshire",
   "New Jersey", "New Mexico", "New York", "North Carolina", "North Dakota", "Ohio", "Oklahoma",
   "Oregon", "Pennsylvania", "Rhode Island", "South Carolina", "South Dakota", "Tennessee",
   "Texas", "Utah", "Vermont", "Virginia", "Washington", "West Virginia", "Wisconsin", "Wyoming"]

/-- The 50 two-letter abbreviations, continuing the source's `states` list. -/
def abbrevs : List String :=
  ["AL", "AK", "AZ", "AR", "CA", "CO", "CT", "DE", "FL", "GA", "HI", "ID", "IL", "IN", "IA",
   "KS", "KY", "LA", "ME", "MD", "MA", "MI", "MN", "MS", "MO", "MT", "NE", "NV", "NH", "NJ",
   "NM", "NY", "NC", "ND", "OH", "OK", "OR", "PA", "RI", "SC", "SD", "TN", "TX", "UT", "VT",
   "VA", "WA", "WV", "WI", "WY"]

/-- The source's `states` list: full names followed by abbreviations. -/
def states : List String := fullNames ++ abbrevs

/-- The source's `abbr_to_name` dict (lines 192-203), as an association list. -/
def abbrPairs : List (String × String) :=
  [("AL", "Alabama"), ("AK", "Alaska"), ("AZ", "Arizona"), ("AR", "Arkansas"), ("CA", "California"),
   ("CO", "Colorado"), ("CT", "Connecticut"), ("DE", "Delaware"), ("FL", "Florida"), ("GA", "Georgia"),
   ("HI", "Hawaii"), ("ID", "Idaho"), ("IL", "Illinois"), ("IN", "Indiana"), ("IA", "Iowa"),
   ("KS", "Kansas"), ("KY", "Kentucky"), ("LA", "Louisiana"), ("ME", "Maine"), ("MD", "Maryland"),
   ("MA", "Massachusetts"), ("MI", "Michigan"), ("MN", "Minnesota"), ("MS", "Mississippi"), ("MO", "Missouri"),
   ("MT", "Montana"), ("NE", "Nebraska"), ("NV", "Nevada"), ("NH", "New Hampshire"), ("NJ", "New Jersey"),
   ("NM", "New Mexico"), ("NY", "New York"), ("NC", "North Carolina"), ("ND", "North Dakota"), ("OH", "Ohio"),
   ("OK", "Oklahoma"), ("OR", "Oregon"), ("PA", "Pennsylvania"), ("RI", "Rhode Island"), ("SC", "South Carolina"),
   ("SD", "South Dakota"), ("TN", "Tennessee"), ("TX", "Texas"), ("UT", "Utah"), ("VT", "Vermont"),
   ("VA", "Virginia"), ("WA", "Washington"), ("WV", "West Virginia"), ("WI", "Wisconsin"), ("WY", "Wyoming")]

/-- Python's `abbr_to_name.get(state)`: lookup in the dict, absent key gives none. -/
def abbr_to_name (s : String) : Option String := abbrPairs.lookup s

/-- Line 211 of `get_news.py`, the containment test applied to each candidate
token: `f" {state} " in f" {text} " or f" {state}," in text or f" {state}." in text`. -/
def stateTokenMatch (text state : String) : Bool :=
  isSubstr (" " ++ state ++ " ") (" " ++ text ++ " ")
    || isSubstr (" " ++ state ++ ",") text
    || isSubstr (" " ++ state ++ ".") text

/-- The body of the `for state in states` loop of `extract_states`
(lines 209-217): on a match, an abbreviation is resolved through
`abbr_to_name` and appended if absent, a full name is appended if absent. -/
def stateStep (text : String) (acc : List String) (state : String) : List String :=
  if stateTokenMatch text state then
    if state.length = 2 then
      match abbr_to_name state with
      | some state_name => if state_name ∈ acc then acc else acc ++ [state_name]
      | none => acc
    else
      if state ∈ acc then acc else acc ++ [state]
  else acc

/-- `extract_states` (lines 169-219): empty text gives no mentions, otherwise
the loop over the `states` list accumulates `mentioned_states`. -/
def extract_states (text : String) : List String :=
  if text = "" then []
  else states.foldl (stateStep text) []

/-- Canonicalization of a candidate token: an abbreviation (length 2) is sent
through `abbr_to_name`, a full name stands for itself. -/
def canonOf (state : String) : Option String :=
  if state.length = 2 then abbr_to_name state else some state

/-- Append an element to the accumulator unless it is already present —
the dedup-preserving append both branches of `stateStep` perform. -/
def insertIfAbsent (acc : List String) (n : String) : List String :=
  if n ∈ acc then acc else acc ++ [n]

/-- The matching policy `stateTokenMatch` actually implements, stated
declaratively: the token surrounded by single spaces occurs in the text
padded with one leading and one trailing space, or the token preceded by a
space and followed by a comma occurs in the unpadded text, or the token
preceded by a space and followed by a period occurs in the unpadded text. -/
def matchesPolicy (text tok : String) : Prop :=
  (" " ++ tok ++ " ").toList <:+: (" " ++ text ++ " ").toList
    ∨ (" " ++ tok ++ ",").toList <:+: text.toList
    ∨ (" " ++ tok ++ ".").toList <:+: text.toList

/-- A Python float as produced by `float(score_text)`: a finite value
(approximated by a rational), positive or negative infinity (replies such
as "inf" or "-Infinity"), or NaN (the reply "nan" parses successfully). -/
inductive PyFloat where
  | finite : ℚ → PyFloat
  | inf : PyFloat
  | negInf : PyFloat
  | nan : PyFloat
deriving DecidableEq

/-- IEEE-754 `<` on Python floats: every comparison against NaN is false,
negative infinity is below everything else, positive infinity above. -/
def pyLt : PyFloat → PyFloat → Bool
  | .nan, _ => false
  | _, .nan => false
  | .negInf, .negInf => false
  | .negInf, .inf => true
  | .negInf, .finite _ => true
  | .inf, _ => false
  | .finite _, .negInf => false
  | .finite _, .inf => true
  | .finite a, .finite b => decide (a < b)

/-- CPython's two-argument `min`: `min(a, b)` returns `b` if `b < a`, else
`a` — so `min(nan, x)` is `nan` (the comparison is false). -/
def pyMin (a b : PyFloat) : PyFloat :=
  if pyLt b a then b else a

/-- CPython's two-argument `max`: `max(a, b)` returns `b` if `b > a`
(that is, `a < b`), else `a` — so `max(nan, x)` is `nan`. -/
def pyMax (a b : PyFloat) : PyFloat :=
  if pyLt a b then b else a

/-- Outcome of one call to the external text-classification service, the
three branches of `analyze_political_leaning` (lines 144-166): the request
raises (caught by the outer `except`), the response does not parse as a
float (the inner `except ValueError`), or it parses to the Python float
`v` — which may be infinite or NaN, since `float()` accepts "inf" and
"nan". -/
inductive LLMOutcome where
  | fail : LLMOutcome
  | unparsable : LLMOutcome
  | value : PyFloat → LLMOutcome

/-- The characters Python's `str.strip()` removes by default. -/
def pySpace (c : Char) : Bool :=
  c = ' ' || c = '\t' || c = '\n' || c = '\r' || c = '\x0b' || c = '\x0c'

/-- Python's `text.strip()`: drop whitespace from both ends. -/
def pyStrip (s : String) : String :=
  ⟨((s.toList.dropWhile pySpace).reverse.dropWhile pySpace).reverse⟩

/-- The number of non-whitespace characters of a text, the quantity the
spec's short-input clause counts. -/
def nonWsCount (s : String) : Nat :=
  (s.toList.filter (fun c => !pySpace c)).length

/-- `analyze_political_leaning` (lines 136-166), with the external service
as an oracle from the submitted prompt text to an outcome. Returns the
score together with a flag recording whether the external call was made.
Guard: `if not text or len(text.strip()) < 10: return 0` (line 140).
Otherwise the first 800 characters are submitted (`text[:800]`, line 149);
a parsed score goes through `max(min(score, 10), -10)` (line 158) with
Python float semantics — NaN propagates through both `min` and `max`; a
parse failure or a raised exception yields the neutral 0. -/
def analyze_political_leaning (llm : String → LLMOutcome) (text : String) : PyFloat × Bool :=
  if text = "" ∨ (pyStrip text).length < 10 then (PyFloat.finite 0, false)
  else
    match llm (⟨text.toList.take 800⟩) with
    | .fail => (PyFloat.finite 0, true)
    | .unparsable => (PyFloat.finite 0, true)
    | .value score => (pyMax (pyMin score (PyFloat.finite 10)) (PyFloat.finite (-10)), true)

/-- The article shape produced by the Fetcher's transformation
(lines 99-107): every field already defaulted to a string, never absent. -/
structure Article where
  title : String
  description : String
  body : String
  url : String
  source_name : String
  publishedAt : String
  date : String
deriving DecidableEq

/-- One row of the enriched table (lines 281-288). -/
structure Row where
  state : String
  title : String
  url : String
  source : String
  political_leaning : PyFloat
  date : String
deriving DecidableEq

/-- The composite text of an article (lines 265-269): title, then
description when non-empty, then body when non-empty, space-separated. -/
def full_text (a : Article) : String :=
  let t1 := a.title
  let t2 := if a.description = "" then t1 else t1 ++ " " ++ a.description
  if a.body = "" then t2 else t2 ++ " " ++ a.body

/-- The per-article stage of `compile_news_political_data` (lines 259-288):
extract the states of the composite text; when none match the article
contributes nothing, otherwise the leaning is computed once and one row per
state is emitted. The second component logs the texts submitted to the
Leaning Scorer, recording how often and on what it was invoked. -/
def processArticle (llm : String → LLMOutcome) (a : Article) : List Row × List String :=
  let ft := full_text a
  let sts := extract_states ft
  if sts = [] then ([], [])
  else
    let leaning := (analyze_political_leaning llm ft).1
    (sts.map (fun st =>
      { state := st, title := a.title, url := a.url, source := a.source_name,
        political_leaning := leaning, date := a.date }), [ft])

/-- The url-dedup loop of `compile_news_political_data` (lines 244-249),
with the `unique_urls` seen-set as an explicit accumulator. -/
def dedupByUrlAux : List String → List Article → List Article
  | _, [] => []
  | seen, a :: rest =>
    if a.url ∈ seen then dedupByUrlAux seen rest
    else a :: dedupByUrlAux (a.url :: seen) rest

/-- Deduplication by url, starting from an empty seen-set. -/
def dedupByUrl (l : List Article) : List Article := dedupByUrlAux [] l

/-- The spec's description of the dedup stage, taken at its word: keep the
first occurrence of each url and drop every later article with that url,
preserving first-seen order. -/
def dedupFirstSpec : List Article → List Article
  | [] => []
  | a :: rest => a :: dedupFirstSpec (rest.filter (fun b => decide ¬(b.url = a.url)))
termination_by l => l.length
decreasing_by simp only [List.length_cons]; exact Nat.lt_succ_of_le (List.length_filter_le _ _)

/-- The fixed topic list of `compile_news_political_data` (line 227). -/
def topics : List String :=
  ["politics", "election", "governor", "senator", "congress", "state legislation"]

/-- The three terminal messages of `compile_news_political_data`: the early
return when nothing was fetched (line 240), the no-state-mentions message
(line 298), and the saved-csv message (line 296). -/
inductive RunReport where
  | noArticlesFetched : RunReport
  | noStateMentions : RunReport
  | savedCsv : RunReport
deriving DecidableEq

/-- Result of a pipeline run: the enriched rows, the log of texts the
Leaning Scorer was invoked on, the persisted artifact — `some` of the
full table exactly when `df.to_csv` was executed (lines 293-298) — and the
terminal message printed. -/
structure PipelineResult where
  rows : List Row
  scoredTexts : List String
  saved : Option (List Row)
  report : RunReport
deriving DecidableEq

/-- `compile_news_political_data` (lines 222-300), with the Fetcher and the
classification oracle as parameters. Articles of all topics are
accumulated; an empty accumulation returns the empty table early
(lines 239-241); otherwise the url-dedup, the per-article processing and
the persistence branch run: a non-empty table is written in full, an empty
one is not written and is reported as the no-state-mentions outcome. -/
def compile_news_political_data (fetch : String → List Article)
    (llm : String → LLMOutcome) : PipelineResult :=
  let all_articles := topics.flatMap fetch
  if all_articles = [] then
    { rows := [], scoredTexts := [], saved := none, report := RunReport.noArticlesFetched }
  else
    let unique_articles := dedupByUrl all_articles
    let processed := unique_articles.map (processArticle llm)
    let rows := processed.flatMap Prod.fst
    let calls := processed.flatMap Prod.snd
    if rows = [] then
      { rows := rows, scoredTexts := calls, saved := none, report := RunReport.noStateMentions }
    else
      { rows := rows, scoredTexts := calls, saved := some rows, report := RunReport.savedCsv }

/-- A raw article as delivered by the search service (lines 91-107): every
field may be absent, mirroring the `.get` accesses with defaults. -/
structure RawArticle where
  title : Option String
  description : Option String
  extract : Option String
  body : Option String
  url : Option String
  source_title : Option String
  dateTime : Option String
  date : Option String
deriving DecidableEq

/-- The transformation of one raw result into an Article (lines 92-107).
`now` and `nowDate` stand for `datetime.now().isoformat()` and
`datetime.now().strftime(...)`, the defaults for absent timestamps.
Python's `description or extract` keeps the description when non-empty and
falls back to the extract otherwise. -/
def transformArticle (now nowDate : String) (r : RawArticle) : Article :=
  let source_name := r.source_title.getD ("Unknown")
  let body := r.body.getD ("")
  let title := r.title.getD ("")
  let description :=
    if r.description.getD ("") = "" then r.extract.getD ("") else r.description.getD ("")
  { title := title, description := description, body := body,
    url := r.url.getD (""), source_name := source_name,
    publishedAt := r.dateTime.getD now, date := r.date.getD nowDate }

/-- The fixed page size `articlesCount` of the request body (line 47). -/
def articlesCount : Nat := 100

/-- The page ceiling `max_pages` (line 60). -/
def max_pages : Nat := 10

/-- The pagination loop of `get_news_articles` (lines 62-130), by fuel on
the remaining pages. The page oracle returns `none` for a non-200 response
or a raised exception — the loop breaks keeping the accumulated articles —
and `some []` when the service reports no more articles. A full page
(`articlesCount` or more results) advances to the next page; a short page
ends the loop. -/
def fetchPages (pages : Nat → Option (List RawArticle)) (now nowDate : String) :
    Nat → Nat → List Article → List Article
  | 0, _, acc => acc
  | fuel + 1, page, acc =>
    match pages page with
    | none => acc
    | some articles =>
      if articles = [] then acc
      else if articles.length < articlesCount then
        acc ++ articles.map (transformArticle now nowDate)
      else
        fetchPages pages now nowDate fuel (page + 1)
          (acc ++ articles.map (transformArticle now nowDate))

/-- `get_news_articles` (lines 26-133): run the pagination loop from page 1
with `max_pages` pages of fuel and an empty accumulator. -/
def get_news_articles (pages : Nat → Option (List RawArticle)) (now nowDate : String) :
    List Article :=
  fetchPages pages now nowDate max_pages 1 []

/-- A page oracle whose only page is the first. -/
def onePage (rs : List RawArticle) : Nat → Option (List RawArticle) :=
  fun p => if p = 1 then some rs else none

/-- A classification oracle answering every prompt with the score 5. -/
def llmValue5 : String → LLMOutcome := fun _ => LLMOutcome.value (PyFloat.finite 5)

/-- A classification oracle whose every reply is the string "nan", which
Python's float() parses to NaN. -/
def llmNan : String → LLMOutcome := fun _ => LLMOutcome.value PyFloat.nan

/-- A classification oracle whose every call raises. -/
def llmFail : String → LLMOutcome := fun _ => LLMOutcome.fail

/-- A fetcher returning no articles for any topic. -/
def fetchNone : String → List Article := fun _ => []

/-- A concrete article whose composite text is "Texas". -/
def aTexas : Article :=
  { title := "Texas", description := "", body := "", url := "http://example.com/tx",
    source_name := "src", publishedAt := "2026-01-01T00:00:00", date := "2026-01-01" }

/-- A concrete raw search result with url "u". -/
def rawU : RawArticle :=
  { title := some ("t"), description := none, extract := none, body := none,
    url := some ("u"), source_title := none, dateTime := none, date := none }

/-- A text with only two non-whitespace characters but ten characters
after stripping the ends. -/
def gapText : String := "a        b"

/-- A twelve-character text passing the scorer's length guard. -/
def longText : String := "aaaaaaaaaaaa"

/-- Keep-first dedup on strings, the spec-side description of how repeated
canonical names are collapsed: the first occurrence stays, later equal
entries are dropped. -/
def dedupStrFirst : List String → List String
  | [] => []
  | a :: rest => a :: dedupStrFirst (rest.filter (fun b => decide ¬(b = a)))
termination_by l => l.length
decreasing_by simp only [List.length_cons]; exact Nat.lt_succ_of_le (List.length_filter_le _ _)

end GetNews

namespace GetNews

lemma mem_insertIfAbsent (acc : List String) (a x : String) :
    x ∈ insertIfAbsent acc a ↔ x ∈ acc ∨ x = a := by
  unfold insertIfAbsent
  split
  · rename_i h
    constructor
    · exact Or.inl
    · rintro (hx | rfl)
      · exact hx
      · exact h
  · simp [List.mem_append]

lemma nodup_insertIfAbsent (acc : List String) (a : String) (h : acc.Nodup) :
    (insertIfAbsent acc a).Nodup := by
  unfold insertIfAbsent
  split
  · exact h
  · rename_i hna
    simp [List.nodup_append, h, hna]

lemma foldl_insertIfAbsent_mem : ∀ (l : List String) (acc : List String) (x : String),
    x ∈ l.foldl insertIfAbsent acc ↔ x ∈ acc ∨ x ∈ l := by
  intro l
  induction l with
  | nil => simp
  | cons a t ih =>
    intro acc x
    rw [List.foldl_cons, ih, mem_insertIfAbsent]
    simp only [List.mem_cons]
    tauto

lemma foldl_insertIfAbsent_nodup : ∀ (l : List String) (acc : List String),
    acc.Nodup → (l.foldl insertIfAbsent acc).Nodup := by
  intro l
  induction l with
  | nil => intro acc h; exact h
  | cons a t ih =>
    intro acc h
    rw [List.foldl_cons]
    exact ih _ (nodup_insertIfAbsent _ _ h)

lemma stateStep_eq_insert (text : String) (acc : List String) (s : String) :
    stateStep text acc s =
      if stateTokenMatch text s then
        (match canonOf s with
          | some n => insertIfAbsent acc n
          | none => acc)
      else acc := by
  unfold stateStep canonOf insertIfAbsent
  by_cases h : stateTokenMatch text s
  · simp only [if_pos h]
    by_cases h2 : s.length = 2
    · simp only [if_pos h2]
    · simp only [if_neg h2]
  · simp only [if_neg h]

lemma foldl_stateStep_eq (text : String) : ∀ (l : List String) (acc : List String),
    l.foldl (stateStep text) acc =
      ((l.filter (stateTokenMatch text)).filterMap canonOf).foldl insertIfAbsent acc := by
  intro l
  induction l with
  | nil => intro acc; rfl
  | cons s t ih =>
    intro acc
    rw [List.foldl_cons, List.filter_cons]
    by_cases h : stateTokenMatch text s
    · rw [if_pos h]
      cases hc : canonOf s with
      | none =>
        rw [List.filterMap_cons_none hc, ih, stateStep_eq_insert, if_pos h, hc]
      | some n =>
        rw [List.filterMap_cons_some hc, List.foldl_cons, ih, stateStep_eq_insert, if_pos h, hc]
    · rw [if_neg h, ih, stateStep_eq_insert, if_neg h]

lemma filter_empty_text : states.filter (stateTokenMatch ("")) = [] := by decide

lemma extract_states_eq_foldl (text : String) :
    extract_states text =
      ((states.filter (stateTokenMatch text)).filterMap canonOf).foldl insertIfAbsent [] := by
  unfold extract_states
  by_cases h : text = ""
  · rw [if_pos h, h, filter_empty_text]
    rfl
  · rw [if_neg h, foldl_stateStep_eq]

lemma statesFilterMapCanon : states.filterMap canonOf = fullNames ++ fullNames := by rfl

lemma stateTokenMatch_iff (text s : String) :
    stateTokenMatch text s = true ↔ matchesPolicy text s := by
  unfold stateTokenMatch matchesPolicy isSubstr
  simp only [Bool.or_eq_true, decide_eq_true_iff]
  tauto

lemma foldl_insertIfAbsent_eq_dedup : ∀ (l : List String) (acc : List String),
    l.foldl insertIfAbsent acc = acc ++ dedupStrFirst (l.filter (fun b => decide ¬(b ∈ acc))) := by
  intro l
  induction l with
  | nil => intro acc; simp [dedupStrFirst]
  | cons a t ih =>
    intro acc
    rw [List.foldl_cons, List.filter_cons]
    by_cases h : a ∈ acc
    · have hd : (decide (a ∉ acc)) = false := by simp [h]
      rw [hd, if_neg Bool.false_ne_true]
      have hins : insertIfAbsent acc a = acc := by unfold insertIfAbsent; rw [if_pos h]
      rw [hins, ih]
    · have hd : (decide (a ∉ acc)) = true := by simp [h]
      rw [hd, if_pos rfl]
      have hins : insertIfAbsent acc a = acc ++ [a] := by unfold insertIfAbsent; rw [if_neg h]
      rw [hins, ih]
      rw [dedupStrFirst]
      have hfil : (t.filter (fun b => decide ¬(b ∈ acc))).filter (fun b => decide ¬(b = a)) =
          t.filter (fun b => decide ¬(b ∈ acc ++ [a])) := by
        rw [List.filter_filter]
        apply List.filter_congr
        intro b _
        by_cases h1 : b = a <;> by_cases h2 : b ∈ acc <;>
          simp [h1, h2, List.mem_append]
      rw [hfil]
      simp

lemma dedupByUrlAux_eq_spec : ∀ (l : List Article) (seen : List String),
    dedupByUrlAux seen l = dedupFirstSpec (l.filter (fun b => decide ¬(b.url ∈ seen))) := by
  intro l
  induction l with
  | nil => intro seen; simp [dedupByUrlAux, dedupFirstSpec]
  | cons a t ih =>
    intro seen
    rw [List.filter_cons]
    by_cases h : a.url ∈ seen
    · have hd : (decide (a.url ∉ seen)) = false := by simp [h]
      rw [hd, if_neg Bool.false_ne_true]
      show dedupByUrlAux seen (a :: t) = _
      unfold dedupByUrlAux
      rw [if_pos h, ih]
    · have hd : (decide (a.url ∉ seen)) = true := by simp [h]
      rw [hd, if_pos rfl]
      show dedupByUrlAux seen (a :: t) = _
      unfold dedupByUrlAux
      rw [if_neg h, ih, dedupFirstSpec]
      have hfil : (t.filter (fun b => decide ¬(b.url ∈ seen))).filter
            (fun b => decide ¬(b.url = a.url)) =
          t.filter (fun b => decide ¬(b.url ∈ a.url :: seen)) := by
        rw [List.filter_filter]
        apply List.filter_congr
        intro b _
        by_cases h1 : b.url = a.url <;> by_cases h2 : b.url ∈ seen <;>
          simp [h1, h2, List.mem_cons]
      rw [hfil]

lemma dedupByUrlAux_nodup : ∀ (l : List Article) (seen : List String),
    ((dedupByUrlAux seen l).map Article.url).Nodup ∧
      ∀ u ∈ (dedupByUrlAux seen l).map Article.url, u ∉ seen := by
  intro l
  induction l with
  | nil => intro seen; simp [dedupByUrlAux]
  | cons a t ih =>
    intro seen
    by_cases h : a.url ∈ seen
    · unfold dedupByUrlAux
      rw [if_pos h]
      exact ih seen
    · unfold dedupByUrlAux
      rw [if_neg h]
      simp only [List.map_cons, List.nodup_cons, List.mem_cons]
      refine ⟨⟨fun hmem => ?_, (ih (a.url :: seen)).1⟩, ?_⟩
      · exact (ih (a.url :: seen)).2 a.url hmem (List.mem_cons_self a.url seen)
      · rintro u (rfl | hu)
        · exact h
        · intro hus
          exact (ih (a.url :: seen)).2 u hu (List.mem_cons_of_mem _ hus)

lemma dedupByUrlAux_sublist : ∀ (l : List Article) (seen : List String),
    List.Sublist (dedupByUrlAux seen l) l := by
  intro l
  induction l with
  | nil => intro seen; simp [dedupByUrlAux]
  | cons a t ih =>
    intro seen
    unfold dedupByUrlAux
    by_cases h : a.url ∈ seen
    · rw [if_pos h]
      exact (ih seen).cons a
    · rw [if_neg h]
      exact (ih (a.url :: seen)).cons₂ a

lemma fetchPages_succ (pages : Nat → Option (List RawArticle)) (now nowDate : String)
    (fuel page : Nat) (acc : List Article) :
    fetchPages pages now nowDate (fuel + 1) page acc =
      (match pages page with
        | none => acc
        | some articles =>
          if articles = [] then acc
          else if articles.length < articlesCount then
            acc ++ articles.map (transformArticle now nowDate)
          else
            fetchPages pages now nowDate fuel (page + 1)
              (acc ++ articles.map (transformArticle now nowDate))) := rfl

lemma fetchPages_none (pages : Nat → Option (List RawArticle)) (now nowDate : String)
    (fuel page : Nat) (acc : List Article) (h : pages page = none) :
    fetchPages pages now nowDate (fuel + 1) page acc = acc := by
  rw [fetchPages_succ, h]

lemma fetchPages_some (pages : Nat → Option (List RawArticle)) (now nowDate : String)
    (fuel page : Nat) (acc : List Article) (rs : List RawArticle) (h : pages page = some rs) :
    fetchPages pages now nowDate (fuel + 1) page acc =
      (if rs = [] then acc
       else if rs.length < articlesCount then acc ++ rs.map (transformArticle now nowDate)
       else
         fetchPages pages now nowDate fuel (page + 1)
           (acc ++ rs.map (transformArticle now nowDate))) := by
  rw [fetchPages_succ, h]

lemma fetchPages_length_le (pages : Nat → Option (List RawArticle)) (now nowDate : String)
    (hbound : ∀ p rs, pages p = some rs → rs.length ≤ articlesCount) :
    ∀ (fuel page : Nat) (acc : List Article),
      (fetchPages pages now nowDate fuel page acc).length ≤
        acc.length + fuel * articlesCount := by
  intro fuel
  induction fuel with
  | zero => intro page acc; simp [fetchPages]
  | succ fuel ih =>
    intro page acc
    rcases hp : pages page with _ | rs
    · rw [fetchPages_none _ _ _ _ _ _ hp]
      simp [articlesCount]
    · rw [fetchPages_some _ _ _ _ _ _ _ hp]
      have hlen : rs.length ≤ articlesCount := hbound page rs hp
      by_cases h0 : rs = []
      · rw [if_pos h0]
        simp [articlesCount]
      · rw [if_neg h0]
        by_cases h1 : rs.length < articlesCount
        · rw [if_pos h1]
          simp only [List.length_append, List.length_map, articlesCount] at hlen ⊢
          omega
        · rw [if_neg h1]
          have := ih (page + 1) (acc ++ rs.map (transformArticle now nowDate))
          simp only [List.length_append, List.length_map, articlesCount] at this hlen ⊢
          omega

lemma fetchPages_short_page (pages : Nat → Option (List RawArticle)) (now nowDate : String)
    (fuel page : Nat) (acc : List Article) (rs : List RawArticle)
    (h : pages page = some rs) (hshort : rs.length < articlesCount) :
    fetchPages pages now nowDate (fuel + 1) page acc =
      acc ++ rs.map (transformArticle now nowDate) := by
  rw [fetchPages_some _ _ _ _ _ _ _ h]
  by_cases h0 : rs = []
  · rw [if_pos h0, h0]
    simp
  · rw [if_neg h0, if_pos hshort]

/-- C1: for every list of fetched articles, the pipeline's deduplication by
url keeps exactly the first occurrence of each url — it equals the keep-first
recursion `dedupFirstSpec`, so later articles with an already-seen url are
dropped even when their content differs — its urls are pairwise distinct, and
the kept articles appear in first-seen order (the result is a sublist of the
input). -/
theorem dedup_keeps_first_occurrence (l : List Article) :
    dedupByUrl l = dedupFirstSpec l ∧
    ((dedupByUrl l).map Article.url).Nodup ∧
    List.Sublist (dedupByUrl l) l := by
  refine ⟨?_, (dedupByUrlAux_nodup l []).1, dedupByUrlAux_sublist l []⟩
  unfold dedupByUrl
  rw [dedupByUrlAux_eq_spec]
  congr 1
  exact List.filter_eq_self.mpr (fun b _ => by simp)

/-- C2: for every unique article whose composite text matches at least one
state, the per-article stage invokes the Leaning Scorer exactly once on the
composite text (the call log is exactly `[full_text a]`) and emits one row
per matched state, all rows carrying the identical leaning value; an article
matching zero states contributes no rows and triggers no scoring call. -/
theorem processArticle_single_scoring (llm : String → LLMOutcome) (a : Article) :
    (extract_states (full_text a) = [] → processArticle llm a = ([], [])) ∧
    (extract_states (full_text a) ≠ [] →
      (processArticle llm a).2 = [full_text a] ∧
      ((processArticle llm a).1).map Row.state = extract_states (full_text a) ∧
      ((processArticle llm a).1).length = (extract_states (full_text a)).length ∧
      ∀ r ∈ (processArticle llm a).1,
        r.political_leaning = (analyze_political_leaning llm (full_text a)).1) := by
  constructor
  · intro h
    simp [processArticle, h]
  · intro h
    refine ⟨?_, ?_, ?_, ?_⟩
    · simp [processArticle, h]
    · simp [processArticle, h, List.map_map, Function.comp_def]
    · simp [processArticle, h]
    · simp only [processArticle, if_neg h, List.mem_map]
      rintro r ⟨st, hst, rfl⟩
      rfl

/-- C3: for every text, every element of `extract_states text` is one of the
50 canonical full state names — never a 2-letter abbreviation — and the
returned sequence has no duplicates, so a state mentioned both by full name
and abbreviation contributes only one entry. -/
theorem extract_states_canonical (text : String) :
    (∀ s ∈ extract_states text, s ∈ fullNames) ∧ (extract_states text).Nodup := by
  constructor
  · intro s hs
    rw [extract_states_eq_foldl, foldl_insertIfAbsent_mem] at hs
    rcases hs with h | h
    · simp at h
    · have h2 : s ∈ states.filterMap canonOf :=
        ((List.filter_sublist states).filterMap canonOf).subset h
      rw [statesFilterMapCanon] at h2
      rcases List.mem_append.mp h2 with h3 | h3 <;> exact h3
  · rw [extract_states_eq_foldl]
    exact foldl_insertIfAbsent_nodup _ _ List.nodup_nil

/-- Witness for C3 at the composite text "Texas". -/
theorem extract_states_canonical_witness :
    (∀ s ∈ extract_states (full_text aTexas), s ∈ fullNames) ∧
      (extract_states (full_text aTexas)).Nodup :=
  extract_states_canonical (full_text aTexas)

/-- Counterexample to C4 as stated: the token "CA" stands at the very start
of the text "CA." and is immediately followed by a period, so the claimed
policy (text padded with a leading space before all three checks) would
match California, but `extract_states` returns nothing — the comma/period
checks of line 211 run against the unpadded text and require a literal
preceding space. -/
theorem extract_states_start_period_counterexample :
    extract_states ("CA.") = [] := by decide

/-- C4 (amended): a state is in the output exactly when some candidate token
canonicalizing to it satisfies the implemented policy: the token surrounded
by single spaces occurs in the text padded with one leading and one trailing
space, or the token preceded by a space and immediately followed by a comma
or a period occurs in the unpadded text. A token at the very start of the
text followed by a comma or period is therefore not matched; a token inside
a longer word is not matched. -/
theorem extract_states_policy (text x : String) :
    x ∈ extract_states text ↔
      ¬(text = "") ∧ ∃ s, s ∈ states ∧ matchesPolicy text s ∧ canonOf s = some x := by
  by_cases h : text = ""
  · subst h
    unfold extract_states
    simp
  · rw [extract_states_eq_foldl, foldl_insertIfAbsent_mem]
    simp only [List.not_mem_nil, false_or, List.mem_filterMap, List.mem_filter]
    constructor
    · rintro ⟨s, ⟨hs, hm⟩, hc⟩
      exact ⟨h, s, hs, (stateTokenMatch_iff text s).mp hm, hc⟩
    · rintro ⟨-, s, hs, hm, hc⟩
      exact ⟨s, ⟨hs, (stateTokenMatch_iff text s).mpr hm⟩, hc⟩

/-- Witness for C4 (amended) at the text "in CA.". -/
theorem extract_states_policy_witness :
    ("California" ∈ extract_states ("in CA.")) ↔
      ¬(("in CA.") = "") ∧
        ∃ s, s ∈ states ∧ matchesPolicy ("in CA.") s ∧ canonOf s = some ("California") :=
  extract_states_policy ("in CA.") ("California")

/-- Counterexample to C5 as stated: the text "Texas and California" mentions
Texas first, yet `extract_states` returns California first, because the loop
iterates over the fixed `states` table, not over positions in the text. -/
theorem extract_states_order_counterexample :
    extract_states ("Texas and California") = ["California", "Texas"] := by decide

/-- C5 (amended): for every text, the output order of `extract_states` is the
order of the source's `states` table (the 50 full names alphabetically, then
the 50 abbreviations), not first-encountered order in the text: the result is
the keep-first dedup of the canonicalized matching tokens taken in table
order. -/
theorem extract_states_table_order (text : String) :
    extract_states text =
      dedupStrFirst ((states.filter (stateTokenMatch text)).filterMap canonOf) := by
  rw [extract_states_eq_foldl, foldl_insertIfAbsent_eq_dedup]
  rw [List.filter_eq_self.mpr (fun b _ => by simp)]
  simp

/-- Witness for C5 (amended) at the spec's scenario text. -/
theorem extract_states_table_order_witness :
    extract_states ("Governor of CA signs bill. TX reacts.") =
      dedupStrFirst
        ((states.filter (stateTokenMatch ("Governor of CA signs bill. TX reacts."))).filterMap
          canonOf) :=
  extract_states_table_order ("Governor of CA signs bill. TX reacts.")

/-- C6 (amended): for every text that is empty or has fewer than 10
characters after stripping leading and trailing whitespace — the condition
`len(text.strip()) < 10` the code actually tests — the Leaning Scorer
returns exactly 0 and does not invoke the external classification service. -/
theorem analyze_short_guard (llm : String → LLMOutcome) (text : String)
    (h : text = "" ∨ (pyStrip text).length < 10) :
    analyze_political_leaning llm text = (PyFloat.finite 0, false) := by
  unfold analyze_political_leaning
  rw [if_pos h]

/-- Witness for C6 (amended) at the two-character text "hi". -/
theorem analyze_short_guard_witness :
    ((("hi" : String) = "" ∨ (pyStrip ("hi")).length < 10) ∧
      analyze_political_leaning llmValue5 ("hi") = (PyFloat.finite 0, false)) :=
  ⟨Or.inr (by decide), analyze_short_guard llmValue5 ("hi") (Or.inr (by decide))⟩

/-- Counterexample to C6 as stated: `gapText` has only 2 non-whitespace
characters, fewer than 10, yet the scorer does invoke the external service
(the interior spaces survive `strip()`, so the stripped length is 10) and
returns the service's score 5 rather than 0. -/
theorem analyze_short_guard_counterexample :
    nonWsCount gapText < 10 ∧
      analyze_political_leaning llmValue5 gapText = (PyFloat.finite 5, true) := by
  decide

/-- Clamping a finite parsed value: line 158's `max(min(score, 10), -10)`
computes the ordinary rational clamp. -/
lemma pyClamp_finite (q : ℚ) :
    pyMax (pyMin (PyFloat.finite q) (PyFloat.finite 10)) (PyFloat.finite (-10)) =
      PyFloat.finite (max (min q 10) (-10)) := by
  have hmin : pyMin (PyFloat.finite q) (PyFloat.finite 10) = PyFloat.finite (min q 10) := by
    unfold pyMin
    by_cases h : (10 : ℚ) < q
    · have hlt : pyLt (PyFloat.finite 10) (PyFloat.finite q) = true := decide_eq_true h
      rw [hlt, if_pos rfl, min_eq_right (le_of_lt h)]
    · have hlt : pyLt (PyFloat.finite 10) (PyFloat.finite q) = false := decide_eq_false h
      rw [hlt, if_neg Bool.false_ne_true, min_eq_left (le_of_not_lt h)]
  rw [hmin]
  unfold pyMax
  by_cases h : min q 10 < (-10 : ℚ)
  · have hlt : pyLt (PyFloat.finite (min q 10)) (PyFloat.finite (-10)) = true := decide_eq_true h
    rw [hlt, if_pos rfl, max_eq_right (le_of_lt h)]
  · have hlt : pyLt (PyFloat.finite (min q 10)) (PyFloat.finite (-10)) = false := decide_eq_false h
    rw [hlt, if_neg Bool.false_ne_true, max_eq_left (le_of_not_lt h)]

/-- Clamping positive infinity lands on the upper bound. -/
lemma pyClamp_inf :
    pyMax (pyMin PyFloat.inf (PyFloat.finite 10)) (PyFloat.finite (-10)) =
      PyFloat.finite 10 := by decide

/-- Clamping negative infinity lands on the lower bound. -/
lemma pyClamp_negInf :
    pyMax (pyMin PyFloat.negInf (PyFloat.finite 10)) (PyFloat.finite (-10)) =
      PyFloat.finite (-10) := by decide

/-- A finite parsed reply is clamped into the closed interval from -10
to 10, as the claim describes: only the NaN reply escapes. -/
lemma analyze_clamps_finite_values (llm : String → LLMOutcome) (text : String) (q : ℚ)
    (hg : ¬(text = "" ∨ (pyStrip text).length < 10))
    (hll : llm (⟨text.toList.take 800⟩) = LLMOutcome.value (PyFloat.finite q)) :
    (analyze_political_leaning llm text).1 = PyFloat.finite (max (min q 10) (-10)) ∧
    -10 ≤ max (min q 10) (-10) ∧ max (min q 10) (-10) ≤ 10 := by
  unfold analyze_political_leaning
  rw [if_neg hg, hll]
  exact ⟨pyClamp_finite q, le_max_right _ _, max_le (min_le_right _ _) (by norm_num)⟩

/-- C7 (code bug): the claim — and the code's own comment on line 158,
"Ensure within -10 to 10 range" — promises that every parsed reply ends up
a finite number within the bound; but the reply "nan" parses via `float()`
and propagates through `max(min(score, 10), -10)` because every NaN
comparison is false, so at the failing input (a text passing the length
guard, service replying NaN) the external call is made and the scorer
returns NaN — not a finite number and not within the interval. Finite and
infinite replies, by contrast, are clamped correctly (`pyClamp_finite`,
`pyClamp_inf`, `pyClamp_negInf`). -/
theorem analyze_nan_escapes_clamp :
    (analyze_political_leaning llmNan longText).2 = true ∧
    (analyze_political_leaning llmNan longText).1 = PyFloat.nan := by decide

/-- Counterexample to C8 as stated: a page carrying the same url twice makes
`get_news_articles` return two articles with url "u" — the fetcher itself
performs no deduplication. -/
theorem fetcher_url_dup_counterexample :
    ((get_news_articles (onePage [rawU, rawU]) ("T") ("D")).map Article.url = ["u", "u"]) ∧
    ¬((get_news_articles (onePage [rawU, rawU]) ("T") ("D")).map Article.url).Nodup := by
  decide

/-- C8 (amended): `get_news_articles` returns the transformed page results
exactly as delivered, duplicates included (for a one-page oracle the result
is literally the page mapped through the transformation); the no-two-share-a-url
invariant holds instead of the unique-article list the pipeline computes with
`dedupByUrl`. -/
theorem fetcher_no_dedup (now nowDate : String) :
    (∀ rs : List RawArticle,
      get_news_articles (onePage rs) now nowDate = rs.map (transformArticle now nowDate)) ∧
    (∀ l : List Article, ((dedupByUrl l).map Article.url).Nodup) := by
  constructor
  · intro rs
    unfold get_news_articles
    show fetchPages (onePage rs) now nowDate (9 + 1) 1 [] = _
    by_cases h1 : rs.length < articlesCount
    · rw [fetchPages_short_page _ _ _ _ _ _ rs rfl h1]
      simp
    · rw [fetchPages_some _ _ _ _ _ _ rs rfl]
      have h0 : rs ≠ [] := by
        intro he
        rw [he] at h1
        exact h1 (by simp [articlesCount])
      rw [if_neg h0, if_neg h1]
      show fetchPages (onePage rs) now nowDate (8 + 1) 2 _ = _
      rw [fetchPages_none _ _ _ _ _ _ rfl]
      simp
  · intro l
    exact (dedupByUrlAux_nodup l []).1

/-- Witness for C8 (amended): the duplicate page comes back verbatim. -/
theorem fetcher_no_dedup_witness :
    get_news_articles (onePage [rawU, rawU]) ("T") ("D") =
      [rawU, rawU].map (transformArticle ("T") ("D")) :=
  (fetcher_no_dedup ("T") ("D")).1 [rawU, rawU]

/-- C9: the pipeline returns an empty table exactly when it persists nothing
(`saved = none`), reports a non-saved outcome distinctly from the saved one,
and when the table is non-empty persists it in full (`saved` carries the
whole row list, the artifact being rewritten wholesale). -/
theorem pipeline_empty_table_handling (fetch : String → List Article)
    (llm : String → LLMOutcome) :
    ((compile_news_political_data fetch llm).rows = [] ↔
      (compile_news_political_data fetch llm).saved = none) ∧
    ((compile_news_political_data fetch llm).rows ≠ [] →
      (compile_news_political_data fetch llm).saved =
          some (compile_news_political_data fetch llm).rows ∧
        (compile_news_political_data fetch llm).report = RunReport.savedCsv) ∧
    ((compile_news_political_data fetch llm).rows = [] →
      (compile_news_political_data fetch llm).report ≠ RunReport.savedCsv) := by
  unfold compile_news_political_data
  by_cases h1 : topics.flatMap fetch = []
  · simp [h1]
  · by_cases h2 :
      ((dedupByUrl (topics.flatMap fetch)).map (processArticle llm)).flatMap Prod.fst = []
    · simp [h1, h2]
    · simp [h1, h2]

/-- Witness for C9 with a fetcher returning no articles for any topic. -/
theorem pipeline_empty_table_handling_witness :
    (compile_news_political_data fetchNone llmFail).saved = none :=
  (pipeline_empty_table_handling fetchNone llmFail).1.mp (by decide)

/-- C10: whenever every page the service returns respects the requested page
size of 100, `get_news_articles` returns at most 1000 articles (at most
`max_pages` = 10 pages of at most 100 each); moreover the loop stops as soon
as the first page returns fewer than 100 results, returning exactly that
page's transformed articles. -/
theorem get_news_articles_bounded (pages : Nat → Option (List RawArticle))
    (now nowDate : String) :
    ((∀ p rs, pages p = some rs → rs.length ≤ articlesCount) →
      (get_news_articles pages now nowDate).length ≤ 1000) ∧
    (∀ rs, pages 1 = some rs → rs.length < articlesCount →
      get_news_articles pages now nowDate = rs.map (transformArticle now nowDate)) := by
  constructor
  · intro hb
    have hle := fetchPages_length_le pages now nowDate hb max_pages 1 []
    simpa [get_news_articles, max_pages, articlesCount] using hle
  · intro rs h1 hshort
    unfold get_news_articles
    show fetchPages pages now nowDate (9 + 1) 1 [] = _
    rw [fetchPages_short_page _ _ _ _ _ _ rs h1 hshort]
    simp

/-- Witness for C10 at a one-page oracle with a single short page. -/
theorem get_news_articles_bounded_witness :
    (get_news_articles (onePage [rawU]) ("T") ("D")).length ≤ 1000 ∧
    get_news_articles (onePage [rawU]) ("T") ("D") = [rawU].map (transformArticle ("T") ("D")) :=
  ⟨(get_news_articles_bounded (onePage [rawU]) ("T") ("D")).1
      (fun p rs h => by
        unfold onePage at h
        by_cases hp : p = 1
        · rw [if_pos hp] at h
          injection h with h2
          rw [← h2]
          decide
        · rw [if_neg hp] at h
          cases h),
    (get_news_articles_bounded (onePage [rawU]) ("T") ("D")).2 [rawU] rfl (by decide)⟩

/-- Witness for C2 at a concrete article whose composite text is "Texas". -/
theorem processArticle_single_scoring_witness :
    (processArticle llmValue5 aTexas).2 = [full_text aTexas] ∧
    ((processArticle llmValue5 aTexas).1).map Row.state = extract_states (full_text aTexas) ∧
    ((processArticle llmValue5 aTexas).1).length = (extract_states (full_text aTexas)).length ∧
    ∀ r ∈ (processArticle llmValue5 aTexas).1,
      r.political_leaning = (analyze_political_leaning llmValue5 (full_text aTexas)).1 :=
  (processArticle_single_scoring llmValue5 aTexas).2 (by decide)

end GetNews
